import Mathlib

/-!
Verification model of the pymind Mind subsystem (src/pymind/repo.py).

Paths are modelled as lists of components, a filesystem as an association
list from paths to entries (directories and regular files with string
contents).  Python functions of the source are translated one by one; where
a Python call site omits a required keyword argument or passes an unexpected
one, the keyword-binding step itself is modelled (pyBindOk) because CPython
raises TypeError at the call before the callee body runs.
-/

/-- A filesystem path as its list of components. -/
abbrev FPath := List String

/-- A filesystem entry: a directory or a regular file with its contents. -/
inductive Entry where
  | dir : Entry
  | file : String → Entry
deriving DecidableEq, Repr, Inhabited

/-- Test for the regular-file case of an entry. -/
def Entry.isFileEntry : Entry → Bool
  | .dir => false
  | .file _ => true

/-- A filesystem: a finite map from paths to entries, as an association list
whose first binding for a path is the visible one. -/
abbrev FS := List (FPath × Entry)

/-- Path existence test, Python `Path.exists()`. -/
def fsHasPath (fs : FS) (p : FPath) : Bool :=
  fs.any (fun pe => pe.1 == p)

/-- Regular-file test, Python `Path.is_file()`. -/
def fsIsFile (fs : FS) (p : FPath) : Bool :=
  fs.any (fun pe => pe.1 == p && pe.2.isFileEntry)

/-- Write an entry at a path, replacing any earlier binding (the effect of
extracting an archive member over an existing path). -/
def fsWrite (fs : FS) (p : FPath) (e : Entry) : FS :=
  (p, e) :: fs.filter (fun pe => pe.1 != p)

/-- Create an entry only when the path is absent: the shared meaning of
Python `mkdir(exist_ok=True)` and `touch(exist_ok=True)` in this model — an
existing member is left exactly as it is, never truncated. -/
def ensureMember (fs : FS) (p : FPath) (e : Entry) : FS :=
  if fsHasPath fs p then fs else (p, e) :: fs

/-- The nonempty initial segments of a path, shortest first. -/
def mkdirChain (p : FPath) : List FPath :=
  (List.range p.length).map (fun i => p.take (i + 1))

/-- Python `Path.mkdir(parents=True, exist_ok=True)`: create the path and
every missing ancestor as directories. -/
def mkdirParents (fs : FS) (p : FPath) : FS :=
  (mkdirChain p).foldl (fun a q => ensureMember a q Entry.dir) fs

/-- The canonical template members created by `mind_initdir`
(src/pymind/repo.py lines 21 to 28), in source order. -/
def templateMembers : List (FPath × Entry) :=
  [(["data"], Entry.dir),
   (["checkpoints"], Entry.dir),
   (["hyperparameters.yaml"], Entry.file ""),
   (["training.py"], Entry.file ""),
   (["initial.state_dict"], Entry.file ""),
   (["dataset.py"], Entry.file ""),
   (["model.py"], Entry.file ""),
   (["versioning"], Entry.dir)]

/-- `mind_initdir` (src/pymind/repo.py lines 12 to 28): create the root when
absent (`mkdir(parents=True, exist_ok=True)` guarded by `not dpath.exists()`),
then create each canonical member with `mkdir(exist_ok=True)` or
`touch(exist_ok=True)`, which leave present members untouched. -/
def mind_initdir (dpath : FPath) (fs : FS) : FS :=
  templateMembers.foldl (fun a me => ensureMember a (dpath ++ me.1) me.2)
    (if fsHasPath fs dpath then fs else mkdirParents fs dpath)

/-- Validity of one member-path component under CPython
`ZipFile._extract_member` sanitization: the empty component (from a leading
or doubled separator), `.` and `..` are dropped. -/
def cleanComp (c : String) : Bool :=
  !(c == "" || c == "." || c == "..")

/-- CPython `ZipFile.extractall` member-name sanitization: every empty, `.`
or `..` component of the member path is removed before joining it under the
destination, so the target never resolves outside the destination root. -/
def sanitizeMember (p : FPath) : FPath :=
  p.filter cleanComp

/-- A path none of whose components would be dropped by sanitization; every
path produced by `pathlib` enumeration of a real directory tree is clean. -/
def cleanPath (p : FPath) : Bool :=
  p.all cleanComp

/-- The entries strictly below `root`, keyed by their path relative to
`root`: the view `Path.rglob` with `relative_to` takes of a directory, and
the member list `mind_export` writes into the archive. -/
def relTree (root : FPath) (fs : FS) : List (FPath × Entry) :=
  fs.filterMap (fun pe =>
    if root <+: pe.1 ∧ pe.1 ≠ root then some (pe.1.drop root.length, pe.2) else none)

/-- `mind_export` (src/pymind/repo.py lines 50 to 64): write every entry
under `dpath` into the archive, keyed by `file.relative_to(dpath)`. -/
def mind_export (dpath : FPath) (fs : FS) : List (FPath × Entry) :=
  relTree dpath fs

/-- The Python exceptions this model distinguishes. -/
inductive PyErr where
  | typeError : PyErr
  | valueError : PyErr
  | indexError : PyErr
  | badZipFile : PyErr
  | alreadyExists : PyErr
deriving DecidableEq, Repr

/-- The filesystem state after `zip_ref.extractall(to_dpath)` on an archive
that opened: each member is written at the destination joined with its
sanitized name, members earlier in the archive first. -/
def extractAll (archive : List (FPath × Entry)) (to_dpath : FPath) (fs : FS) : FS :=
  archive.foldl (fun a me => fsWrite a (to_dpath ++ sanitizeMember me.1) me.2)
    (mkdirParents fs to_dpath)

/-- `mind_extract_file_to_dpath` (src/pymind/repo.py lines 30 to 38): create
the destination (`mkdir(parents=True, exist_ok=True)`), open the archive —
`zipfile.ZipFile(fpath, "r")` raises `BadZipFile` on a corrupt container —
then `extractall`.  The archive argument carries the member list of the
mind-file; `corrupt` says whether the container fails to open. -/
def mind_extract_file_to_dpath (corrupt : Bool) (archive : List (FPath × Entry))
    (to_dpath : FPath) (fs : FS) : Except PyErr FS :=
  if corrupt then .error .badZipFile else .ok (extractAll archive to_dpath fs)

/-- CPython keyword binding for a call made with keyword arguments only:
the call raises TypeError unless every required parameter is given and every
given keyword names a parameter (none of the modelled callees takes
`**kwargs`). -/
def pyBindOk (params required given : List String) : Bool :=
  required.all (fun r => given.contains r) && given.all (fun g => params.contains g)

/-- The parameters of `MindDir.__init__` besides `self`
(src/pymind/repo.py lines 105 to 110). -/
def MindDir.initParams : List String := ["path", "init", "_istmp"]

/-- The parameters of `MindDir.__init__` that have no default value. -/
def MindDir.initRequired : List String := ["path"]

/-- The keywords `MindObject.__init__` passes to `super().__init__` on its
branch for a directory path that does not exist
(src/pymind/repo.py lines 212 to 215): `path=dpath, _isnew=True`.  The
keyword `_isnew` names no parameter of `MindDir.__init__`. -/
def MindObject.newDirSuperKwargs : List String := ["path", "_isnew"]

/-- The value `MindDir.__init__` leaves in `self._istmp`
(src/pymind/repo.py lines 105 to 128): only the `path.is_file()` branch
assigns `self._istmp = True`; the other branches keep the class default
`False`, and the `_istmp` argument of the constructor is read by no branch
at all. -/
def MindDir.initIstmpFlag (pathIsFile : Bool) (_istmpArg : Bool) : Bool :=
  if pathIsFile then true else false

/-- `shutil` style recursive removal of a subtree, the effect of
`TemporaryDirectory.cleanup`: drop the path and everything below it. -/
def fsRemoveTree (fs : FS) (p : FPath) : FS :=
  fs.filter (fun pe => !(p.isPrefixOf pe.1))

/-- `MindDir.__del__` (src/pymind/repo.py lines 137 to 139): the destructor
removes the base path only when `self._istmp` is set. -/
def MindDir.del (basepath : FPath) (istmp : Bool) (fs : FS) : FS :=
  if istmp then fsRemoveTree fs basepath else fs

/-- `MindObject.__init__` on the archive-only branch
(src/pymind/repo.py lines 195 to 199): `mind_extract_file_to_tmp` extracts
the mind-file into a fresh temporary directory `tmpPath`, and
`super().__init__` is called on that directory with `_istmp=False`.  The
temporary path is an existing directory, not a file, so `MindDir.__init__`
takes its final branch and the handle keeps
`MindDir.initIstmpFlag false false` as its `_istmp`.  Result: the
filesystem after extraction, the base path, and the `_istmp` flag of the
owning handle. -/
def MindObject.initFromFile (archive : List (FPath × Entry)) (tmpPath : FPath)
    (fs : FS) : FS × FPath × Bool :=
  (extractAll archive tmpPath fs, tmpPath, MindDir.initIstmpFlag false false)

/-- The filesystem effect of `MindDir.__init__`
(src/pymind/repo.py lines 105 to 128) for a path that is not a regular
file; the `path.is_file()` branch (mind-file extraction into a temporary
directory) is modelled by `MindObject.initFromFile`, so it yields `none`
here.  A path that does not exist is templated; an existing directory is
templated only when `init` is set, and otherwise nothing on disk is read,
validated or changed. -/
def MindDir.initFs (path : FPath) (init : Bool) (fs : FS) : Option FS :=
  if fsIsFile fs path then none
  else if !(fsHasPath fs path) then some (mind_initdir path fs)
  else some (if init then mind_initdir path fs else fs)

/-- `MindObject.__init__` with both `fpath` and `dpath` given
(src/pymind/repo.py lines 204 to 223), reduced to its observable outcome:
when `dpath` does not exist the branch calls
`super().__init__(path=dpath, _isnew=True)`, whose keyword binding fails;
when `dpath` exists the directory is opened unchanged and the mind-file is
exported only when `fpath` does not exist yet.  The `ok` payload records
whether an export to `fpath` was performed. -/
def MindObject.initBoth (fpathExists dpathExists : Bool) : Except PyErr Bool :=
  if !dpathExists then
    if pyBindOk MindDir.initParams MindDir.initRequired MindObject.newDirSuperKwargs then
      .ok (!fpathExists)
    else .error .typeError
  else .ok (!fpathExists)

/-- A semantic version as the `semver` package represents it: numeric
major, minor and patch, optional prerelease and build strings. -/
structure Version where
  major : Nat
  minor : Nat
  patch : Nat
  prerelease : Option String
  build : Option String
deriving DecidableEq, Repr

/-- `semver.Version.bump_major`: raise major, zero minor and patch, clear
prerelease and build. -/
def Version.bump_major (v : Version) : Version :=
  ⟨v.major + 1, 0, 0, none, none⟩

/-- `semver.Version.bump_minor`: keep major, raise minor, zero patch, clear
prerelease and build. -/
def Version.bump_minor (v : Version) : Version :=
  ⟨v.major, v.minor + 1, 0, none, none⟩

/-- `semver.Version.bump_patch`: keep major and minor, raise patch, clear
prerelease and build. -/
def Version.bump_patch (v : Version) : Version :=
  ⟨v.major, v.minor, v.patch + 1, none, none⟩

/-- The version `Mind.save_minor` hands to `save`
(src/pymind/repo.py lines 346 to 350): the source calls
`self.latest.bump_patch()`, not `bump_minor`. -/
def Mind.save_minor (latest : Version) : Version :=
  latest.bump_patch

/-- The history state of the pygit2 repository a Mind wraps, as far as the
claims observe it: whether the object store exists, how many commits the
store holds, and the names of its tags. -/
structure RepoState where
  objectsExists : Bool
  commits : Nat
  tags : List String
deriving DecidableEq, Repr

/-- `pygit2.Repository.create_tag`: raises `AlreadyExistsError` when a
reference of that name exists, otherwise records the tag. -/
def RepoState.create_tag (r : RepoState) (name : String) : Except PyErr RepoState :=
  if name ∈ r.tags then .error .alreadyExists
  else .ok { r with tags := name :: r.tags }

/-- The history effect of `Mind.__init__`
(src/pymind/repo.py lines 269 to 295): when no object store exists under
`versioning/`, initialize one and create the parentless "Base Template"
commit through `mind_commit` — that call supplies every required argument —
then unconditionally run `mind_version_tag(version="0.0.0", ...)`, which
calls `create_tag("0.0.0", ...)` with no check whether the tag exists. -/
def Mind.initHistory (r : RepoState) : Except PyErr RepoState :=
  let r1 := if !r.objectsExists then
      { objectsExists := true, commits := r.commits + 1, tags := r.tags }
    else r
  r1.create_tag "0.0.0"

/-- The parameters of `mind_commit` (src/pymind/repo.py line 71), all
without defaults. -/
def mind_commit_params : List String :=
  ["repo", "refname", "owner", "engineer", "msg", "parents"]

/-- The parameters of `mind_version_tag` (src/pymind/repo.py line 83), all
without defaults. -/
def mind_version_tag_params : List String :=
  ["repo", "version", "oid", "owner"]

/-- The keywords `Mind.save` passes to `mind_commit`
(src/pymind/repo.py lines 313 to 319): `owner` is not among them. -/
def Mind.save_commitKwargs : List String :=
  ["repo", "refname", "engineer", "msg", "parents"]

/-- The keywords `Mind.save` passes to `mind_version_tag`
(src/pymind/repo.py lines 322 to 326): `owner` is not among them. -/
def Mind.save_tagKwargs : List String :=
  ["repo", "version", "oid"]

/-- `Mind.save` (src/pymind/repo.py lines 307 to 326): the call to
`mind_commit` and then the call to `mind_version_tag` each bind keywords
against the callee parameters; a failed binding raises TypeError before the
callee body runs and leaves history untouched.  Were both bindings to
succeed, the body would add one commit and then tag it under the bare
version string (`repo.create_tag(version, ...)`, no `v` prefix). -/
def Mind.save (r : RepoState) (version : String) : Except PyErr RepoState :=
  if pyBindOk mind_commit_params mind_commit_params Mind.save_commitKwargs then
    if pyBindOk mind_version_tag_params mind_version_tag_params Mind.save_tagKwargs then
      RepoState.create_tag { r with commits := r.commits + 1 } version
    else .error .typeError
  else .error .typeError

/-- Lexicographic comparison of character lists by code point: the order
Python uses for `str` comparison and hence for `list.sort` on strings. -/
def charsLt : List Char → List Char → Bool
  | [], [] => false
  | [], _ :: _ => true
  | _ :: _, [] => false
  | a :: as1, b :: bs1 =>
    if a < b then true else if b < a then false else charsLt as1 bs1

/-- Python string comparison `a < b`. -/
def strLtB (a b : String) : Bool :=
  charsLt a.data b.data

/-- Insertion into a descending-sorted list under Python string order. -/
def insertDesc (s : String) : List String → List String
  | [] => [s]
  | t :: ts => if strLtB t s then s :: t :: ts else t :: insertDesc s ts

/-- Python `list.sort(reverse=True)` on strings: the list rearranged into
descending string order. -/
def sortDesc (l : List String) : List String :=
  l.foldr insertDesc []

/-- `mind_get_all_tags` (src/pymind/repo.py lines 66 to 69): keep the
references whose full name starts with `refs/tags/`, then
`tags.sort(reverse=True)` — a descending sort of the reference name
strings, not a semantic-version comparison. -/
def mind_get_all_tags (refs : List String) : List String :=
  sortDesc (refs.filter (fun r => ("refs/tags/".data).isPrefixOf r.data))

/-- Split a character list at every occurrence of `sep`. -/
def splitOnChar (sep : Char) : List Char → List (List Char)
  | [] => [[]]
  | c :: rest =>
    match splitOnChar sep rest with
    | [] => [[]]
    | h :: t => if c == sep then [] :: h :: t else (c :: h) :: t

/-- Split a character list at the first occurrence of `sep`, when any. -/
def breakAtFirst (sep : Char) : List Char → Option (List Char × List Char)
  | [] => none
  | c :: rest =>
    if c == sep then some ([], rest)
    else (breakAtFirst sep rest).map (fun pr => (c :: pr.1, pr.2))

/-- Decimal value of a digit list. -/
def digitsVal (cs : List Char) : Nat :=
  cs.foldl (fun n c => n * 10 + (c.toNat - 48)) 0

/-- A nonempty all-digit identifier. -/
def isDigits (cs : List Char) : Bool :=
  !cs.isEmpty && cs.all (fun c => c.isDigit)

/-- A numeric field of the semver grammar, `0|[1-9][0-9]*`: digits with no
leading zero. -/
def numIdentVal (cs : List Char) : Option Nat :=
  if isDigits cs && (cs == ['0'] || cs.head? != some '0') then some (digitsVal cs)
  else none

/-- A character the semver grammar allows in prerelease and build
identifiers. -/
def isAlnumHy (c : Char) : Bool :=
  c.isAlphanum || c == '-'

/-- A valid prerelease identifier: nonempty, alphanumeric or hyphen, and
when purely numeric, without a leading zero. -/
def isPreIdent (cs : List Char) : Bool :=
  !cs.isEmpty && cs.all isAlnumHy &&
    (!(cs.all (fun c => c.isDigit)) || (cs == ['0'] || cs.head? != some '0'))

/-- A valid build identifier: nonempty, alphanumeric or hyphen. -/
def isBuildIdent (cs : List Char) : Bool :=
  !cs.isEmpty && cs.all isAlnumHy

/-- The dotted `major.minor.patch` core of a version string. -/
def parseCore3 (cs : List Char) : Option (Nat × Nat × Nat) :=
  match splitOnChar '.' cs with
  | [a, b, c] =>
    match numIdentVal a, numIdentVal b, numIdentVal c with
    | some x, some y, some z => some (x, y, z)
    | _, _, _ => none
  | _ => none

/-- `semver.Version.parse`: the strict semver grammar — three numeric core
fields, an optional prerelease after the first hyphen past the core, an
optional build after the first plus sign.  A full reference name such as
`refs/tags/0.0.9` is not a valid version, so parsing it raises ValueError
in the source; here it yields `none`. -/
def versionParse (s : String) : Option Version :=
  let cs := s.data
  let mb : List Char × Option (List Char) :=
    match breakAtFirst '+' cs with
    | none => (cs, none)
    | some pr => (pr.1, some pr.2)
  let buildOk : Bool :=
    match mb.2 with
    | none => true
    | some b => (splitOnChar '.' b).all isBuildIdent
  if buildOk then
    let cp : List Char × Option (List Char) :=
      match breakAtFirst '-' mb.1 with
      | none => (mb.1, none)
      | some pr => (pr.1, some pr.2)
    let preOk : Bool :=
      match cp.2 with
      | none => true
      | some p => (splitOnChar '.' p).all isPreIdent
    if preOk then
      (parseCore3 cp.1).map (fun t =>
        ⟨t.1, t.2.1, t.2.2, cp.2.map (fun p => ⟨p⟩), mb.2.map (fun b => ⟨b⟩)⟩)
    else none
  else none

/-- `Mind.latest` (src/pymind/repo.py lines 358 to 360):
`Version.parse(mind_get_all_tags(self)[0])` — index the descending
string-sorted reference list (IndexError when no tag exists) and parse the
first entry as a semantic version (ValueError when it is not one). -/
def Mind.latest (refs : List String) : Except PyErr Version :=
  match mind_get_all_tags refs with
  | [] => .error .indexError
  | t :: _ =>
    match versionParse t with
    | some v => .ok v
    | none => .error .valueError

/-- Precedence of two semver identifiers: numeric identifiers compare
numerically and rank below alphanumeric ones; alphanumeric identifiers
compare lexically. -/
def identLt (a b : List Char) : Bool :=
  if isDigits a then (if isDigits b then decide (digitsVal a < digitsVal b) else true)
  else (if isDigits b then false else charsLt a b)

/-- Precedence of two prerelease identifier sequences, field by field; a
strict initial segment ranks lower. -/
def preLt : List (List Char) → List (List Char) → Bool
  | [], [] => false
  | [], _ :: _ => true
  | _ :: _, [] => false
  | a :: as1, b :: bs1 => if a == b then preLt as1 bs1 else identLt a b

/-- Modelled from the spec: true semantic-version precedence — numeric
comparison per major, minor, patch; prerelease identifiers compared field
by field, a version without a prerelease outranking an otherwise-equal one
with a prerelease; build metadata excluded from the ordering. -/
def semverPrecLt (u v : Version) : Bool :=
  if u.major != v.major then decide (u.major < v.major)
  else if u.minor != v.minor then decide (u.minor < v.minor)
  else if u.patch != v.patch then decide (u.patch < v.patch)
  else
    match u.prerelease, v.prerelease with
    | none, _ => false
    | some _, none => true
    | some p, some q => preLt (splitOnChar '.' p.data) (splitOnChar '.' q.data)

theorem fsHasPath_iff (fs : FS) (p : FPath) :
    fsHasPath fs p = true ↔ ∃ pe ∈ fs, pe.1 = p := by
  unfold fsHasPath
  rw [List.any_eq_true]
  constructor
  · rintro ⟨pe, hpe, hb⟩
    exact ⟨pe, hpe, beq_iff_eq.mp hb⟩
  · rintro ⟨pe, hpe, hb⟩
    exact ⟨pe, hpe, beq_iff_eq.mpr hb⟩

theorem fsHasPath_false_iff (fs : FS) (p : FPath) :
    fsHasPath fs p = false ↔ ∀ pe ∈ fs, pe.1 ≠ p := by
  rw [← Bool.not_eq_true, fsHasPath_iff]
  push_neg
  rfl

theorem ensureMember_keeps (fs : FS) (p : FPath) (e : Entry) (q : FPath)
    (h : fsHasPath fs q = true) : fsHasPath (ensureMember fs p e) q = true := by
  unfold ensureMember
  split
  · exact h
  · simp only [fsHasPath, List.any_cons] at h ⊢
    rw [h]
    simp

theorem ensureMember_self (fs : FS) (p : FPath) (e : Entry) :
    fsHasPath (ensureMember fs p e) p = true := by
  unfold ensureMember
  split
  · assumption
  · simp [fsHasPath]

theorem ensureMember_sub (fs : FS) (p : FPath) (e : Entry) :
    fs ⊆ ensureMember fs p e := by
  unfold ensureMember
  split
  · exact List.Subset.refl fs
  · exact List.subset_cons_self _ _

theorem ensureMember_noop (fs : FS) (p : FPath) (e : Entry)
    (h : fsHasPath fs p = true) : ensureMember fs p e = fs := by
  unfold ensureMember
  rw [if_pos h]

theorem foldStep_keeps {B : Type} (step : FS → B → FS)
    (hstep : ∀ (a : FS) (b : B) (q : FPath),
      fsHasPath a q = true → fsHasPath (step a b) q = true)
    (l : List B) :
    ∀ (base : FS) (q : FPath), fsHasPath base q = true →
      fsHasPath (l.foldl step base) q = true := by
  induction l with
  | nil => intro base q h; exact h
  | cons hd tl ih =>
    intro base q h
    rw [List.foldl_cons]
    exact ih _ q (hstep _ _ _ h)

theorem foldStep_self {B : Type} (step : FS → B → FS) (key : B → FPath)
    (hkeeps : ∀ (a : FS) (b : B) (q : FPath),
      fsHasPath a q = true → fsHasPath (step a b) q = true)
    (hself : ∀ (a : FS) (b : B), fsHasPath (step a b) (key b) = true)
    (l : List B) :
    ∀ (base : FS) (x : B), x ∈ l →
      fsHasPath (l.foldl step base) (key x) = true := by
  induction l with
  | nil => intro base x hx; cases hx
  | cons hd tl ih =>
    intro base x hx
    rw [List.foldl_cons]
    rcases List.mem_cons.mp hx with h | h
    · subst h
      exact foldStep_keeps step hkeeps tl _ (key x) (hself base x)
    · exact ih _ x h

theorem foldStep_sub {B : Type} (step : FS → B → FS)
    (hsub : ∀ (a : FS) (b : B), a ⊆ step a b) (l : List B) :
    ∀ base : FS, base ⊆ l.foldl step base := by
  induction l with
  | nil => intro base; exact List.Subset.refl _
  | cons hd tl ih =>
    intro base
    rw [List.foldl_cons]
    exact List.Subset.trans (hsub base hd) (ih _)

theorem foldStep_noop {B : Type} (step : FS → B → FS) (key : B → FPath)
    (hnoop : ∀ (a : FS) (b : B), fsHasPath a (key b) = true → step a b = a)
    (l : List B) (base : FS)
    (h : ∀ x ∈ l, fsHasPath base (key x) = true) :
    l.foldl step base = base := by
  induction l with
  | nil => rfl
  | cons hd tl ih =>
    rw [List.foldl_cons, hnoop base hd (h hd (List.mem_cons_self _ _))]
    exact ih (fun x hx => h x (List.mem_cons_of_mem _ hx))

theorem foldStep_mem_spec {B : Type} (step : FS → B → FS) (key : B → FPath)
    (val : B → Entry)
    (hspec : ∀ (a : FS) (b : B) (pe : FPath × Entry),
      pe ∈ step a b → pe ∈ a ∨ pe = (key b, val b))
    (l : List B) :
    ∀ (base : FS) (pe : FPath × Entry), pe ∈ l.foldl step base →
      pe ∈ base ∨ ∃ x ∈ l, pe = (key x, val x) := by
  induction l with
  | nil => intro base pe h; exact Or.inl h
  | cons hd tl ih =>
    intro base pe h
    rw [List.foldl_cons] at h
    rcases ih _ pe h with h1 | h1
    · rcases hspec base hd pe h1 with h2 | h2
      · exact Or.inl h2
      · exact Or.inr ⟨hd, List.mem_cons_self _ _, h2⟩
    · rcases h1 with ⟨x, hx, he⟩
      exact Or.inr ⟨x, List.mem_cons_of_mem _ hx, he⟩

theorem ensureMember_mem_spec (a : FS) (p : FPath) (e : Entry)
    (pe : FPath × Entry) (h : pe ∈ ensureMember a p e) :
    pe ∈ a ∨ pe = (p, e) := by
  by_cases hc : fsHasPath a p = true
  · rw [ensureMember, if_pos hc] at h
    exact Or.inl h
  · rw [ensureMember, if_neg hc] at h
    rcases List.mem_cons.mp h with h2 | h2
    · exact Or.inr h2
    · exact Or.inl h2

theorem self_mem_mkdirChain (p : FPath) (h : p ≠ []) : p ∈ mkdirChain p := by
  have hlen : 0 < p.length := List.length_pos.mpr h
  refine List.mem_map.mpr ⟨p.length - 1, List.mem_range.mpr (by omega), ?_⟩
  have he : p.length - 1 + 1 = p.length := by omega
  rw [he, List.take_length]

theorem mkdirChain_pre (p q : FPath) (h : q ∈ mkdirChain p) : q <+: p := by
  rcases List.mem_map.mp h with ⟨i, _, hq⟩
  exact hq ▸ ⟨p.drop (i + 1), List.take_append_drop _ _⟩

theorem mkdirParents_has_self (fs : FS) (p : FPath) (h : p ≠ []) :
    fsHasPath (mkdirParents fs p) p = true :=
  foldStep_self (fun a q => ensureMember a q Entry.dir) (fun q => q)
    (fun a b q hq => ensureMember_keeps a b Entry.dir q hq)
    (fun a b => ensureMember_self a b Entry.dir)
    (mkdirChain p) fs p (self_mem_mkdirChain p h)

theorem mkdirParents_sub (fs : FS) (p : FPath) : fs ⊆ mkdirParents fs p :=
  foldStep_sub (fun a q => ensureMember a q Entry.dir)
    (fun a b => ensureMember_sub a b Entry.dir) (mkdirChain p) fs

theorem mkdirParents_mem_spec (fs : FS) (p : FPath) (pe : FPath × Entry)
    (h : pe ∈ mkdirParents fs p) : pe ∈ fs ∨ pe.1 <+: p := by
  rcases foldStep_mem_spec (fun a q => ensureMember a q Entry.dir) (fun q => q)
    (fun _ => Entry.dir)
    (fun a b x hx => ensureMember_mem_spec a b Entry.dir x hx)
    (mkdirChain p) fs pe h with h1 | h1
  · exact Or.inl h1
  · rcases h1 with ⟨q, hq, he⟩
    right
    rw [he]
    exact mkdirChain_pre p q hq

theorem mind_initdir_eq (dpath : FPath) (fs : FS) :
    mind_initdir dpath fs
      = templateMembers.foldl (fun a me => ensureMember a (dpath ++ me.1) me.2)
          (if fsHasPath fs dpath then fs else mkdirParents fs dpath) := rfl

theorem mind_initdir_has_root (dpath : FPath) (fs : FS) (h : dpath ≠ []) :
    fsHasPath (mind_initdir dpath fs) dpath = true := by
  have hb : fsHasPath (if fsHasPath fs dpath then fs else mkdirParents fs dpath)
      dpath = true := by
    by_cases hc : fsHasPath fs dpath = true
    · rw [if_pos hc]; exact hc
    · rw [if_neg hc]; exact mkdirParents_has_self fs dpath h
  rw [mind_initdir_eq]
  apply foldStep_keeps (fun a me => ensureMember a (dpath ++ me.1) me.2)
    (fun a b q hq => ensureMember_keeps a (dpath ++ b.1) b.2 q hq)
    templateMembers
    (if fsHasPath fs dpath then fs else mkdirParents fs dpath) dpath hb

theorem mind_initdir_has_members (dpath : FPath) (fs : FS) :
    ∀ me ∈ templateMembers,
      fsHasPath (mind_initdir dpath fs) (dpath ++ me.1) = true := by
  intro me hme
  rw [mind_initdir_eq]
  apply foldStep_self (fun a me => ensureMember a (dpath ++ me.1) me.2)
    (fun x => dpath ++ x.1)
    (fun a b q hq => ensureMember_keeps a (dpath ++ b.1) b.2 q hq)
    (fun a b => ensureMember_self a (dpath ++ b.1) b.2)
    templateMembers
    (if fsHasPath fs dpath then fs else mkdirParents fs dpath) me hme

theorem mind_initdir_noop (dpath : FPath) (fs : FS)
    (hroot : fsHasPath fs dpath = true)
    (hmem : ∀ me ∈ templateMembers, fsHasPath fs (dpath ++ me.1) = true) :
    mind_initdir dpath fs = fs := by
  have hbody := foldStep_noop (fun a me => ensureMember a (dpath ++ me.1) me.2)
    (fun me => dpath ++ me.1)
    (fun a b hb => ensureMember_noop a (dpath ++ b.1) b.2 hb)
    templateMembers fs hmem
  rw [mind_initdir_eq, if_pos hroot]
  exact hbody

/-- C7: `mind_initdir` keeps every pre-existing binding (it never truncates
or removes a member), creates the root and each canonical member so they
are present afterwards, and running it a second time on its own result
changes nothing on disk. -/
theorem template_engine_creates_only_absent (dpath : FPath) (fs : FS)
    (h : dpath ≠ []) :
    fs ⊆ mind_initdir dpath fs
    ∧ fsHasPath (mind_initdir dpath fs) dpath = true
    ∧ (∀ me ∈ templateMembers,
        fsHasPath (mind_initdir dpath fs) (dpath ++ me.1) = true)
    ∧ mind_initdir dpath (mind_initdir dpath fs) = mind_initdir dpath fs := by
  refine ⟨?_, mind_initdir_has_root dpath fs h, mind_initdir_has_members dpath fs, ?_⟩
  · have h2 := foldStep_sub (fun a me => ensureMember a (dpath ++ me.1) me.2)
      (fun a b => ensureMember_sub a (dpath ++ b.1) b.2) templateMembers
      (if fsHasPath fs dpath then fs else mkdirParents fs dpath)
    have h1 : fs ⊆ (if fsHasPath fs dpath then fs else mkdirParents fs dpath) := by
      by_cases hc : fsHasPath fs dpath = true
      · rw [if_pos hc]
        exact List.Subset.refl fs
      · rw [if_neg hc]
        exact mkdirParents_sub fs dpath
    rw [mind_initdir_eq]
    exact List.Subset.trans h1 h2
  · exact mind_initdir_noop dpath (mind_initdir dpath fs)
      (mind_initdir_has_root dpath fs h) (mind_initdir_has_members dpath fs)

/-- C7 witness: templating the concrete root `m` over the empty filesystem
satisfies every part of the property, the hypothesis being that the root
path is nonempty. -/
theorem template_engine_creates_only_absent_witness :
    ([] : FS) ⊆ mind_initdir ["m"] []
    ∧ fsHasPath (mind_initdir ["m"] []) ["m"] = true
    ∧ (∀ me ∈ templateMembers,
        fsHasPath (mind_initdir ["m"] []) (["m"] ++ me.1) = true)
    ∧ mind_initdir ["m"] (mind_initdir ["m"] []) = mind_initdir ["m"] [] :=
  template_engine_creates_only_absent ["m"] [] (by decide)

/-- C1: with tags for versions 0.0.9 and 0.0.10 both present,
`mind_get_all_tags` sorts the full reference names as strings descending
and places `refs/tags/0.0.9` first, and `Mind.latest` then parses that full
reference name and raises ValueError — it does not return 0.0.10 — while
true semantic-version precedence ranks 0.0.9 below 0.0.10. -/
theorem latest_uses_string_order_not_semver :
    mind_get_all_tags ["refs/heads/master", "refs/tags/0.0.10", "refs/tags/0.0.9"]
        = ["refs/tags/0.0.9", "refs/tags/0.0.10"]
    ∧ Mind.latest ["refs/heads/master", "refs/tags/0.0.10", "refs/tags/0.0.9"]
        = .error .valueError
    ∧ versionParse "0.0.9" = some ⟨0, 0, 9, none, none⟩
    ∧ versionParse "0.0.10" = some ⟨0, 0, 10, none, none⟩
    ∧ semverPrecLt ⟨0, 0, 9, none, none⟩ ⟨0, 0, 10, none, none⟩ = true
    ∧ sortDesc ["0.0.10", "0.0.9"] = ["0.0.9", "0.0.10"] :=
  ⟨rfl, rfl, rfl, rfl, rfl, rfl⟩

/-- C2: the call `Mind.save` makes to `mind_commit` omits the required
`owner` parameter, and so does its call to `mind_version_tag`; keyword
binding fails, so `save` raises TypeError and creates neither a commit nor
a tag on any Mind — here evaluated on a freshly constructed history. -/
theorem save_call_omits_owner_argument :
    pyBindOk mind_commit_params mind_commit_params Mind.save_commitKwargs = false
    ∧ pyBindOk mind_version_tag_params mind_version_tag_params Mind.save_tagKwargs = false
    ∧ Mind.save ⟨true, 1, ["0.0.0"]⟩ "0.1.0" = .error .typeError :=
  ⟨rfl, rfl, rfl⟩

/-- C3: when the latest version is 0.0.1, `Mind.save_minor` computes
`bump_patch` of it — version 0.0.2 — while the minor-bumped successor the
claim describes is 0.1.0. -/
theorem save_minor_uses_patch_bump :
    Mind.save_minor ⟨0, 0, 1, none, none⟩ = ⟨0, 0, 2, none, none⟩
    ∧ Version.bump_minor ⟨0, 0, 1, none, none⟩ = ⟨0, 1, 0, none, none⟩
    ∧ Mind.save_minor ⟨0, 0, 1, none, none⟩ ≠ Version.bump_minor ⟨0, 0, 1, none, none⟩ :=
  ⟨rfl, rfl, by decide⟩

/-- C4: the first construction on a fresh directory establishes the
invariant — one root commit and a tag 0.0.0 — but `Mind.__init__` recreates
the 0.0.0 tag unconditionally, so constructing a Mind a second time on the
same directory raises AlreadyExists instead of succeeding. -/
theorem reopen_fails_on_duplicate_base_tag :
    Mind.initHistory ⟨false, 0, []⟩ = .ok ⟨true, 1, ["0.0.0"]⟩
    ∧ Mind.initHistory ⟨true, 1, ["0.0.0"]⟩ = .error .alreadyExists :=
  ⟨rfl, rfl⟩

/-- C5: for a Mind built from an archive, `MindObject.__init__` reaches
`MindDir.__init__` with an already extracted temporary directory and
`_istmp=False`, and no branch of `MindDir.__init__` sets `self._istmp` for
a directory path (the argument is not even read), so the owning handle ends
with `_istmp = False` and `MindDir.__del__` releases nothing: after the
destructor runs, the temporary directory still exists. -/
theorem archive_handle_never_releases_tmpdir :
    (MindObject.initFromFile [(["model.py"], Entry.file "w")] ["tmp0"] []).2.2 = false
    ∧ MindDir.del ["tmp0"] false
        (MindObject.initFromFile [(["model.py"], Entry.file "w")] ["tmp0"] []).1
      = (MindObject.initFromFile [(["model.py"], Entry.file "w")] ["tmp0"] []).1
    ∧ fsHasPath
        (MindDir.del ["tmp0"] false
          (MindObject.initFromFile [(["model.py"], Entry.file "w")] ["tmp0"] []).1)
        ["tmp0"] = true
    ∧ MindDir.initIstmpFlag false true = false :=
  ⟨rfl, rfl, rfl, rfl⟩

/-- C9: when the directory path does not exist, `MindObject.__init__`
passes the keyword `_isnew` to `MindDir.__init__`, which has no such
parameter, so the branch raises TypeError instead of templating a new
persistent directory; on the existing-directory branch an export happens
exactly when the archive path is absent, so an existing archive is never
overwritten. -/
theorem new_dpath_branch_raises_unexpected_keyword :
    MindObject.initBoth true false = .error .typeError
    ∧ MindObject.initBoth false false = .error .typeError
    ∧ pyBindOk MindDir.initParams MindDir.initRequired MindObject.newDirSuperKwargs = false
    ∧ MindObject.initBoth true true = .ok false
    ∧ MindObject.initBoth false true = .ok true :=
  ⟨rfl, rfl, rfl, rfl, rfl⟩

/-- C10: opening an existing directory with `MindDir.__init__` and
`init=False` takes the final branch, which only records the base path:
the filesystem is returned unchanged, no template member is created and no
validation of the canonical members happens. -/
theorem open_existing_dir_changes_nothing (fs : FS) (path : FPath)
    (hdir : fsHasPath fs path = true) (hfile : fsIsFile fs path = false) :
    MindDir.initFs path false fs = some fs := by
  unfold MindDir.initFs
  rw [hfile, hdir]
  rfl

/-- C10 witness: the concrete directory `d` already exists, and opening it
without `init` leaves the filesystem exactly as it was. -/
theorem open_existing_dir_changes_nothing_witness :
    fsHasPath [(["d"], Entry.dir)] ["d"] = true
    ∧ fsIsFile [(["d"], Entry.dir)] ["d"] = false
    ∧ MindDir.initFs ["d"] false [(["d"], Entry.dir)] = some [(["d"], Entry.dir)] :=
  ⟨rfl, rfl, open_existing_dir_changes_nothing [(["d"], Entry.dir)] ["d"] rfl rfl⟩

/-- C8 counterexample: an intact archive with the traversal member
`../evil.txt` does not make the import fail with a format error — the
member is sanitized and extracted inside the destination root `d`. -/
theorem traversal_member_does_not_raise :
    mind_extract_file_to_dpath false [(["..", "evil.txt"], Entry.file "x")] ["d"] []
      = .ok [(["d", "evil.txt"], Entry.file "x"), (["d"], Entry.dir)] :=
  rfl

theorem relTree_eq (root : FPath) (l : FS) :
    relTree root l = l.filterMap (fun pe =>
      if root <+: pe.1 ∧ pe.1 ≠ root
      then some (pe.1.drop root.length, pe.2) else none) := rfl

theorem mind_export_eq (dpath : FPath) (fs : FS) :
    mind_export dpath fs = relTree dpath fs := rfl

theorem extractAll_eq (archive : List (FPath × Entry)) (to_dpath : FPath) (fs : FS) :
    extractAll archive to_dpath fs
      = archive.foldl (fun a me => fsWrite a (to_dpath ++ sanitizeMember me.1) me.2)
          (mkdirParents fs to_dpath) := rfl

theorem foldWrite_confine (archive : List (FPath × Entry)) (dest : FPath) :
    ∀ (base : FS) (pe : FPath × Entry),
      pe ∈ archive.foldl (fun a me => fsWrite a (dest ++ sanitizeMember me.1) me.2) base →
      pe ∈ base ∨ dest <+: pe.1 := by
  induction archive with
  | nil => intro base pe h; exact Or.inl h
  | cons hd tl ih =>
    intro base pe h
    rw [List.foldl_cons] at h
    rcases ih _ pe h with h1 | h1
    · unfold fsWrite at h1
      rcases List.mem_cons.mp h1 with h2 | h2
      · right
        rw [h2]
        exact ⟨sanitizeMember hd.1, rfl⟩
      · exact Or.inl (List.mem_of_mem_filter h2)
    · exact Or.inr h1

/-- C8 amended: on a corrupt container the import fails with BadZipFile, a
format error; an intact archive is always extracted without an error — a
member path that would resolve outside the destination root is sanitized
(its empty, dot and dot-dot components dropped) rather than rejected — and
every entry of the result either was already present from creating the
destination or lies under the destination root, so no member is ever
extracted outside it. -/
theorem extract_confines_members_to_dest (archive : List (FPath × Entry))
    (to_dpath : FPath) (fs : FS) :
    mind_extract_file_to_dpath true archive to_dpath fs = .error .badZipFile
    ∧ mind_extract_file_to_dpath false archive to_dpath fs
        = .ok (extractAll archive to_dpath fs)
    ∧ ∀ pe ∈ extractAll archive to_dpath fs,
        pe ∈ mkdirParents fs to_dpath ∨ to_dpath <+: pe.1 := by
  refine ⟨rfl, rfl, ?_⟩
  intro pe hpe
  rw [extractAll_eq] at hpe
  exact foldWrite_confine archive to_dpath (mkdirParents fs to_dpath) pe hpe

theorem pre_drop_eq (root p : FPath) (h : root <+: p) :
    root ++ p.drop root.length = p := by
  obtain ⟨t, ht⟩ := h
  rw [← ht, List.drop_left]

theorem pre_antisymm (a b : FPath) (h1 : a <+: b) (h2 : b <+: a) : a = b :=
  h1.eq_of_length (Nat.le_antisymm h1.length_le h2.length_le)

theorem relTree_mem_spec (root : FPath) (fs : FS) (pe : FPath × Entry)
    (h : pe ∈ relTree root fs) : pe.1 ≠ [] ∧ (root ++ pe.1, pe.2) ∈ fs := by
  rw [relTree_eq] at h
  rcases List.mem_filterMap.mp h with ⟨a, ha, hfa⟩
  by_cases hc : root <+: a.1 ∧ a.1 ≠ root
  · rw [if_pos hc] at hfa
    have hpe : (a.1.drop root.length, a.2) = pe := Option.some.inj hfa
    obtain ⟨t, ht⟩ := hc.1
    have hdrop : a.1.drop root.length = t := by rw [← ht, List.drop_left]
    rw [← hpe]
    refine ⟨?_, ?_⟩
    · simp only [hdrop]
      intro hnil
      apply hc.2
      rw [← ht, hnil, List.append_nil]
    · simp only [hdrop]
      rw [ht, Prod.mk.eta]
      exact ha
  · rw [if_neg hc] at hfa
    cases hfa

theorem relTree_keys (root : FPath) (fs : FS) :
    (relTree root fs).map Prod.fst
      = (fs.map Prod.fst).filterMap
          (fun p => if root <+: p ∧ p ≠ root then some (p.drop root.length) else none) := by
  rw [relTree_eq, List.map_filterMap, List.filterMap_map]
  congr 1
  funext pe
  by_cases hc : root <+: pe.1 ∧ pe.1 ≠ root
  · simp only [Function.comp_apply, if_pos hc]
    rfl
  · simp only [Function.comp_apply, if_neg hc]
    rfl

theorem relTree_keys_nodup (root : FPath) (fs : FS)
    (hnd : (fs.map Prod.fst).Nodup) : ((relTree root fs).map Prod.fst).Nodup := by
  rw [relTree_keys]
  refine hnd.filterMap ?_
  intro a a' b hb hb'
  by_cases hc : root <+: a ∧ a ≠ root
  · rw [if_pos hc] at hb
    by_cases hc' : root <+: a' ∧ a' ≠ root
    · rw [if_pos hc'] at hb'
      have e1 : a.drop root.length = b := Option.some.inj (Option.mem_def.mp hb)
      have e2 : a'.drop root.length = b := Option.some.inj (Option.mem_def.mp hb')
      rw [← pre_drop_eq root a hc.1, ← pre_drop_eq root a' hc'.1, e1, e2]
    · rw [if_neg hc'] at hb'
      cases hb'
  · rw [if_neg hc] at hb
    cases hb

theorem relTree_of_prefixed (dest : FPath) (ar : List (FPath × Entry))
    (h : ∀ me ∈ ar, me.1 ≠ []) :
    relTree dest (ar.map (fun me => (dest ++ me.1, me.2))) = ar := by
  induction ar with
  | nil => rfl
  | cons hd tl ih =>
    obtain ⟨r, e⟩ := hd
    have hr : r ≠ [] := h (r, e) (List.mem_cons_self _ _)
    have hc : dest <+: (dest ++ r) ∧ (dest ++ r) ≠ dest := by
      refine ⟨⟨r, rfl⟩, ?_⟩
      intro he
      apply hr
      have hlen := congrArg List.length he
      rw [List.length_append] at hlen
      exact List.length_eq_zero.mp (by omega)
    have hf : (if dest <+: dest ++ r ∧ dest ++ r ≠ dest
        then some ((dest ++ r).drop dest.length, e) else none) = some (r, e) := by
      rw [if_pos hc, List.drop_left]
    rw [List.map_cons, relTree_eq,
      List.filterMap_cons_some (f := fun pe : FPath × Entry =>
          if dest <+: pe.1 ∧ pe.1 ≠ dest
          then some (pe.1.drop dest.length, pe.2) else none)
        (a := (dest ++ r, e))
        (l := tl.map (fun me => (dest ++ me.1, me.2))) hf]
    rw [← relTree_eq dest (tl.map (fun me => (dest ++ me.1, me.2)))]
    rw [ih (fun me hme => h me (List.mem_cons_of_mem _ hme))]

theorem relTree_append (r : FPath) (l1 l2 : FS) :
    relTree r (l1 ++ l2) = relTree r l1 ++ relTree r l2 := by
  rw [relTree_eq r (l1 ++ l2), relTree_eq r l1, relTree_eq r l2]
  exact List.filterMap_append l1 l2 _

theorem relTree_nil_of_outside (dest : FPath) (base : FS)
    (h : ∀ pe ∈ base, ¬(dest <+: pe.1 ∧ pe.1 ≠ dest)) : relTree dest base = [] := by
  rw [relTree_eq]
  refine List.filterMap_eq_nil_iff.mpr ?_
  intro a ha
  rw [if_neg (h a ha)]

theorem foldWrite_congr (dest : FPath) (l : List (FPath × Entry)) :
    ∀ base : FS, (∀ me ∈ l, sanitizeMember me.1 = me.1) →
      l.foldl (fun a me => fsWrite a (dest ++ sanitizeMember me.1) me.2) base
        = l.foldl (fun a me => fsWrite a (dest ++ me.1) me.2) base := by
  induction l with
  | nil => intro base _; rfl
  | cons hd tl ih =>
    intro base h
    rw [List.foldl_cons, List.foldl_cons, h hd (List.mem_cons_self _ _)]
    exact ih _ (fun me hme => h me (List.mem_cons_of_mem _ hme))

theorem foldWrite_fresh (dest : FPath) (l : List (FPath × Entry)) :
    ∀ base : FS, (l.map (fun me => dest ++ me.1)).Nodup →
      (∀ me ∈ l, fsHasPath base (dest ++ me.1) = false) →
      l.foldl (fun a me => fsWrite a (dest ++ me.1) me.2) base
        = (l.map (fun me => (dest ++ me.1, me.2))).reverse ++ base := by
  induction l with
  | nil => intro base _ _; rfl
  | cons hd tl ih =>
    obtain ⟨r, e⟩ := hd
    intro base hnd hb
    have hnd2 : ((dest ++ r) ∉ tl.map (fun me => dest ++ me.1))
        ∧ (tl.map (fun me => dest ++ me.1)).Nodup :=
      List.nodup_cons.mp (by simpa using hnd)
    have hw : fsWrite base (dest ++ r) e = (dest ++ r, e) :: base := by
      unfold fsWrite
      congr 1
      refine List.filter_eq_self.mpr ?_
      intro pe hpe
      rw [bne_iff_ne]
      exact (fsHasPath_false_iff base (dest ++ r)).mp
        (hb (r, e) (List.mem_cons_self _ _)) pe hpe
    have hb2 : ∀ me ∈ tl,
        fsHasPath ((dest ++ r, e) :: base) (dest ++ me.1) = false := by
      intro me hme
      refine (fsHasPath_false_iff _ _).mpr ?_
      intro pe hpe
      rcases List.mem_cons.mp hpe with h2 | h2
      · subst h2
        show dest ++ r ≠ dest ++ me.1
        intro he
        apply hnd2.1
        rw [he]
        exact List.mem_map_of_mem (fun me => dest ++ me.1) hme
      · exact (fsHasPath_false_iff base _).mp
          (hb me (List.mem_cons_of_mem _ hme)) pe h2
    rw [List.foldl_cons]
    show List.foldl (fun a me => fsWrite a (dest ++ me.1) me.2)
      (fsWrite base (dest ++ r) e) tl = _
    rw [hw, ih _ hnd2.2 hb2, List.map_cons, List.reverse_cons,
      List.append_assoc, List.singleton_append]

theorem relTree_clean (root : FPath) (fs : FS)
    (hclean : ∀ p ∈ fs.map Prod.fst, cleanPath p = true) :
    ∀ me ∈ relTree root fs, sanitizeMember me.1 = me.1 := by
  intro me hme
  have hm := (relTree_mem_spec root fs me hme).2
  have hp : cleanPath (root ++ me.1) = true :=
    hclean (root ++ me.1) (List.mem_map_of_mem Prod.fst hm)
  unfold cleanPath at hp
  rw [List.all_append, Bool.and_eq_true] at hp
  unfold sanitizeMember
  exact List.filter_eq_self.mpr (fun c hc => List.all_eq_true.mp hp.2 c hc)

theorem relTree_ne_nil (root : FPath) (fs : FS) :
    ∀ me ∈ relTree root fs, me.1 ≠ [] :=
  fun me hme => (relTree_mem_spec root fs me hme).1

theorem relTree_prefixed_keys_nodup (root dest : FPath) (fs : FS)
    (hnd : (fs.map Prod.fst).Nodup) :
    ((relTree root fs).map (fun me => dest ++ me.1)).Nodup := by
  have h1 : (relTree root fs).map (fun me => dest ++ me.1)
      = ((relTree root fs).map Prod.fst).map (fun p => dest ++ p) := by
    rw [List.map_map]
    rfl
  rw [h1]
  refine List.Nodup.map ?_ (relTree_keys_nodup root fs hnd)
  intro a b hab
  exact List.append_cancel_left hab

/-- C6: exporting a populated directory `root` (whose tree has one binding
per path and clean pathlib components) and importing the resulting archive
into a fresh destination — one with nothing under `to_dpath` — succeeds and
reproduces exactly the relative tree of the original directory: the
relative paths of the destination are a permutation of, hence equal as a
set with contents to, those of the source. -/
theorem export_import_round_trip (fs : FS) (root to_dpath : FPath) (fs2 : FS)
    (hnd : (fs.map Prod.fst).Nodup)
    (hclean : ∀ p ∈ fs.map Prod.fst, cleanPath p = true)
    (hfresh : ∀ pe ∈ fs2, ¬(to_dpath <+: pe.1 ∧ pe.1 ≠ to_dpath)) :
    mind_extract_file_to_dpath false (mind_export root fs) to_dpath fs2
        = .ok (extractAll (mind_export root fs) to_dpath fs2)
    ∧ List.Perm (relTree to_dpath (extractAll (mind_export root fs) to_dpath fs2))
        (relTree root fs) := by
  refine ⟨rfl, ?_⟩
  have hsan := relTree_clean root fs hclean
  have hne := relTree_ne_nil root fs
  have hkeys := relTree_prefixed_keys_nodup root to_dpath fs hnd
  have hbase : ∀ me ∈ relTree root fs,
      fsHasPath (mkdirParents fs2 to_dpath) (to_dpath ++ me.1) = false := by
    intro me hme
    refine (fsHasPath_false_iff _ _).mpr ?_
    intro pe hpe he
    rcases mkdirParents_mem_spec fs2 to_dpath pe hpe with h1 | h1
    · refine hfresh pe h1 ⟨he ▸ ⟨me.1, rfl⟩, ?_⟩
      rw [he]
      intro he2
      refine hne me hme ?_
      have hlen := congrArg List.length he2
      rw [List.length_append] at hlen
      exact List.length_eq_zero.mp (by omega)
    · rw [he] at h1
      have hle := h1.length_le
      rw [List.length_append] at hle
      exact hne me hme (List.length_eq_zero.mp (by omega))
  have he1 : extractAll (mind_export root fs) to_dpath fs2
      = ((relTree root fs).map (fun me => (to_dpath ++ me.1, me.2))).reverse
          ++ mkdirParents fs2 to_dpath := by
    rw [extractAll_eq, mind_export_eq]
    rw [foldWrite_congr to_dpath (relTree root fs) (mkdirParents fs2 to_dpath) hsan]
    exact foldWrite_fresh to_dpath (relTree root fs) (mkdirParents fs2 to_dpath)
      hkeys hbase
  rw [he1]
  have hp0 : List.Perm
      (((relTree root fs).map (fun me => (to_dpath ++ me.1, me.2))).reverse
        ++ mkdirParents fs2 to_dpath)
      ((relTree root fs).map (fun me => (to_dpath ++ me.1, me.2))
        ++ mkdirParents fs2 to_dpath) :=
    (List.reverse_perm _).append_right _
  have hp1 : List.Perm
      (relTree to_dpath
        (((relTree root fs).map (fun me => (to_dpath ++ me.1, me.2))).reverse
          ++ mkdirParents fs2 to_dpath))
      (relTree to_dpath
        ((relTree root fs).map (fun me => (to_dpath ++ me.1, me.2))
          ++ mkdirParents fs2 to_dpath)) := by
    rw [relTree_eq, relTree_eq]
    exact hp0.filterMap _
  have he2 : relTree to_dpath
      ((relTree root fs).map (fun me => (to_dpath ++ me.1, me.2))
        ++ mkdirParents fs2 to_dpath) = relTree root fs := by
    rw [relTree_append, relTree_of_prefixed to_dpath (relTree root fs) hne,
      relTree_nil_of_outside to_dpath (mkdirParents fs2 to_dpath) ?_,
      List.append_nil]
    intro pe hpe
    rcases mkdirParents_mem_spec fs2 to_dpath pe hpe with h1 | h1
    · exact hfresh pe h1
    · rintro ⟨hpre, hneq⟩
      exact hneq (pre_antisymm pe.1 to_dpath h1 hpre)
  rw [he2] at hp1
  exact hp1

/-- C6 witness: a concrete populated directory `p` with a subdirectory and
an unrelated sibling, exported and imported into the fresh destination
`out` of a filesystem holding one unrelated entry; the hypotheses hold by
computation and the round trip reproduces the relative tree. -/
theorem export_import_round_trip_witness :
    (([(["p"], Entry.dir), (["p", "a.txt"], Entry.file "hello"),
        (["p", "sub"], Entry.dir), (["p", "sub", "b"], Entry.file "x"),
        (["q"], Entry.file "z")] : FS).map Prod.fst).Nodup
    ∧ (∀ p ∈ ([(["p"], Entry.dir), (["p", "a.txt"], Entry.file "hello"),
        (["p", "sub"], Entry.dir), (["p", "sub", "b"], Entry.file "x"),
        (["q"], Entry.file "z")] : FS).map Prod.fst, cleanPath p = true)
    ∧ (∀ pe ∈ ([(["q2"], Entry.dir)] : FS),
        ¬(["out"] <+: pe.1 ∧ pe.1 ≠ ["out"]))
    ∧ (mind_extract_file_to_dpath false
          (mind_export ["p"]
            [(["p"], Entry.dir), (["p", "a.txt"], Entry.file "hello"),
             (["p", "sub"], Entry.dir), (["p", "sub", "b"], Entry.file "x"),
             (["q"], Entry.file "z")])
          ["out"] [(["q2"], Entry.dir)]
        = .ok (extractAll
            (mind_export ["p"]
              [(["p"], Entry.dir), (["p", "a.txt"], Entry.file "hello"),
               (["p", "sub"], Entry.dir), (["p", "sub", "b"], Entry.file "x"),
               (["q"], Entry.file "z")])
            ["out"] [(["q2"], Entry.dir)])
      ∧ List.Perm
          (relTree ["out"]
            (extractAll
              (mind_export ["p"]
                [(["p"], Entry.dir), (["p", "a.txt"], Entry.file "hello"),
                 (["p", "sub"], Entry.dir), (["p", "sub", "b"], Entry.file "x"),
                 (["q"], Entry.file "z")])
              ["out"] [(["q2"], Entry.dir)]))
          (relTree ["p"]
            [(["p"], Entry.dir), (["p", "a.txt"], Entry.file "hello"),
             (["p", "sub"], Entry.dir), (["p", "sub", "b"], Entry.file "x"),
             (["q"], Entry.file "z")])) :=
  ⟨by decide, by decide, by decide,
    export_import_round_trip
      [(["p"], Entry.dir), (["p", "a.txt"], Entry.file "hello"),
       (["p", "sub"], Entry.dir), (["p", "sub", "b"], Entry.file "x"),
       (["q"], Entry.file "z")]
      ["p"] ["out"] [(["q2"], Entry.dir)]
      (by decide) (by decide) (by decide)⟩
